import Mathlib

/-!
Verification of the original logic in `workflow_agents/agent.py`:
the shared-session-state append tool (`append_to_state`), the report
file-write tool (`write_file`, including the POSIX `os.path.join`,
`os.path.dirname` and `os.makedirs` semantics it relies on), and the
iteration bound of the `trial_process` loop agent (`max_iterations=4`).
-/

/-- A value stored in the session state: either a scalar string or a list
of strings (the two shapes `append_to_state` distinguishes with
`isinstance(existing_state, str)`). -/
inductive StateVal where
  | str (s : String)
  | list (l : List String)
  deriving DecidableEq, Repr

/-- Session state: a mapping from field name to value. -/
def StateMap := List (String × StateVal)

instance : DecidableEq StateMap := by
  unfold StateMap
  infer_instance

/-- Lookup of a field in the session state (`tool_context.state.get(field, ...)`
without the default). -/
def stGet : StateMap → String → Option StateVal
  | [], _ => none
  | (k, v) :: rest, f => if k = f then some v else stGet rest f

/-- Assignment `tool_context.state[field] = value`: replaces the entry if the
key is present, otherwise adds it. -/
def stSet : StateMap → String → StateVal → StateMap
  | [], f, v => [(f, v)]
  | (k, w) :: rest, f, v =>
    if k = f then (k, v) :: rest else (k, w) :: stSet rest f v

/-- Embedding of `append_to_state` (agent.py lines 30-41): read the field with
default `[]`, wrap a scalar string into a one-element list, concatenate the
new response, store the result back, and return `{"status": "success"}`. -/
def append_to_state (st : StateMap) (field response : String) :
    StateMap × List (String × String) :=
  let existing_state := (stGet st field).getD (StateVal.list [])
  let existing_list :=
    match existing_state with
    | StateVal.str s => [s]
    | StateVal.list l => l
  (stSet st field (StateVal.list (existing_list ++ [response])),
    [("status", "success")])

/-- `N` sequential calls of `append_to_state` on the same field, values in
call order. -/
def appendN (st : StateMap) (field : String) (vs : List String) : StateMap :=
  vs.foldl (fun s v => (append_to_state s field v).1) st

theorem stGet_stSet_self (st : StateMap) (f : String) (v : StateVal) :
    stGet (stSet st f v) f = some v := by
  induction st with
  | nil => simp [stSet, stGet]
  | cons hd tl ih =>
    obtain ⟨k, w⟩ := hd
    by_cases hk : k = f
    · simp [stSet, stGet, hk]
    · simp [stSet, stGet, hk, ih]

theorem stGet_stSet_ne (st : StateMap) (f g : String) (v : StateVal)
    (hne : g ≠ f) : stGet (stSet st f v) g = stGet st g := by
  have hfg : f ≠ g := fun h => hne h.symm
  induction st with
  | nil => simp [stSet, stGet, hfg]
  | cons hd tl ih =>
    obtain ⟨k, w⟩ := hd
    by_cases hk : k = f
    · subst hk
      simp [stSet, stGet, hfg]
    · by_cases hg : k = g
      · subst hg
        simp [stSet, stGet, hne]
      · simp [stSet, stGet, hk, hg, ih]

theorem append_to_state_on_list (st : StateMap) (f v : String) (l : List String)
    (h : stGet st f = some (StateVal.list l)) :
    (append_to_state st f v).1 = stSet st f (StateVal.list (l ++ [v])) := by
  simp [append_to_state, h]

theorem appendN_on_list (vs : List String) (st : StateMap) (f : String)
    (l : List String) (h : stGet st f = some (StateVal.list l)) :
    stGet (appendN st f vs) f = some (StateVal.list (l ++ vs)) := by
  induction vs generalizing st l with
  | nil => simpa [appendN] using h
  | cons v rest ih =>
    have hstep : (append_to_state st f v).1 = stSet st f (StateVal.list (l ++ [v])) :=
      append_to_state_on_list st f v l h
    have hget : stGet ((append_to_state st f v).1) f = some (StateVal.list (l ++ [v])) := by
      rw [hstep]; exact stGet_stSet_self st f _
    have := ih ((append_to_state st f v).1) (l ++ [v]) hget
    simpa [appendN, List.foldl_cons, List.append_assoc] using this

theorem appendN_from_absent (st : StateMap) (f : String) (vs : List String)
    (h : stGet st f = none) (hvs : vs ≠ []) :
    stGet (appendN st f vs) f = some (StateVal.list vs) := by
  cases vs with
  | nil => exact absurd rfl hvs
  | cons v rest =>
    have hstep : (append_to_state st f v).1 = stSet st f (StateVal.list [v]) := by
      simp [append_to_state, h]
    have hget : stGet ((append_to_state st f v).1) f = some (StateVal.list [v]) := by
      rw [hstep]; exact stGet_stSet_self st f _
    have := appendN_on_list rest ((append_to_state st f v).1) f [v] hget
    simpa [appendN, List.foldl_cons] using this

theorem appendN_from_scalar (st : StateMap) (f x : String) (vs : List String)
    (h : stGet st f = some (StateVal.str x)) (hvs : vs ≠ []) :
    stGet (appendN st f vs) f = some (StateVal.list (x :: vs)) := by
  cases vs with
  | nil => exact absurd rfl hvs
  | cons v rest =>
    have hstep : (append_to_state st f v).1 = stSet st f (StateVal.list [x, v]) := by
      simp [append_to_state, h]
    have hget : stGet ((append_to_state st f v).1) f = some (StateVal.list [x, v]) := by
      rw [hstep]; exact stGet_stSet_self st f _
    have := appendN_on_list rest ((append_to_state st f v).1) f [x, v] hget
    simpa [appendN, List.foldl_cons] using this

/-- Claim C1 (as stated, counterexample): starting from a field that holds the
pre-existing scalar "x", a sequence of N = 1 append calls (value "y") leaves
the field holding the two-element list ["x", "y"], not a list of exactly
N = 1 elements. -/
theorem C1_claim_counterexample :
    stGet (appendN [("f", StateVal.str "x")] "f" ["y"]) "f"
        = some (StateVal.list ["x", "y"]) ∧
      stGet (appendN [("f", StateVal.str "x")] "f" ["y"]) "f"
        ≠ some (StateVal.list ["y"]) := by
  decide

/-- Claim C1 (amended): for every field and every nonempty sequence of N
values appended in call order, if the field was absent it ends holding the
list of exactly those N values in call order; if the field held a
pre-existing scalar, it ends holding N + 1 elements: the scalar followed by
the N values in call order. -/
theorem C1_append_count (st : StateMap) (f : String) (vs : List String)
    (hvs : vs ≠ []) :
    (stGet st f = none → stGet (appendN st f vs) f = some (StateVal.list vs)) ∧
      (∀ x, stGet st f = some (StateVal.str x) →
        stGet (appendN st f vs) f = some (StateVal.list (x :: vs))) :=
  ⟨fun h => appendN_from_absent st f vs h hvs,
   fun x h => appendN_from_scalar st f x vs h hvs⟩

/-- Witness for C1_append_count at concrete inputs. -/
theorem C1_append_count_witness :
    stGet (appendN [] "pos_data" ["a", "b"]) "pos_data"
        = some (StateVal.list ["a", "b"]) ∧
      stGet (appendN [("f", StateVal.str "x")] "f" ["y"]) "f"
        = some (StateVal.list ["x", "y"]) :=
  ⟨(C1_append_count [] "pos_data" ["a", "b"] (by decide)).1 (by decide),
   (C1_append_count [("f", StateVal.str "x")] "f" ["y"] (by decide)).2 "x" (by decide)⟩

/-- Claim C2: if a field already holds the scalar "x", one append of "y"
leaves it holding exactly ["x", "y"]. -/
theorem C2_scalar_then_append (st : StateMap) (f : String)
    (h : stGet st f = some (StateVal.str "x")) :
    stGet ((append_to_state st f "y").1) f = some (StateVal.list ["x", "y"]) := by
  have hstep : (append_to_state st f "y").1 = stSet st f (StateVal.list ["x", "y"]) := by
    simp [append_to_state, h]
  rw [hstep]
  exact stGet_stSet_self st f _

/-- Witness for C2_scalar_then_append at a concrete state. -/
theorem C2_scalar_then_append_witness :
    stGet ((append_to_state [("f", StateVal.str "x")] "f" "y").1) "f"
      = some (StateVal.list ["x", "y"]) :=
  C2_scalar_then_append [("f", StateVal.str "x")] "f" (by decide)

/-- Claim C4: the append operation always returns the success dictionary
`{"status": "success"}` (no error path of its own), and a pre-existing
scalar prior value is wrapped into a one-element list before the new value
is appended, for every prior scalar value. -/
theorem C4_scalar_wrap_and_success :
    (∀ (st : StateMap) (f v : String),
        (append_to_state st f v).2 = [("status", "success")]) ∧
      (∀ (st : StateMap) (f v x : String),
        stGet st f = some (StateVal.str x) →
          stGet ((append_to_state st f v).1) f = some (StateVal.list [x, v])) := by
  constructor
  · intro st f v
    rfl
  · intro st f v x h
    have hstep : (append_to_state st f v).1 = stSet st f (StateVal.list [x, v]) := by
      simp [append_to_state, h]
    rw [hstep]
    exact stGet_stSet_self st f _

/-- Witness for C4_scalar_wrap_and_success at concrete inputs. -/
theorem C4_scalar_wrap_and_success_witness :
    (append_to_state [] "f" "v").2 = [("status", "success")] ∧
      stGet ((append_to_state [("f", StateVal.str "x")] "f" "v").1) "f"
        = some (StateVal.list ["x", "v"]) :=
  ⟨C4_scalar_wrap_and_success.1 [] "f" "v",
   C4_scalar_wrap_and_success.2 [("f", StateVal.str "x")] "f" "v" "x" (by decide)⟩

/-- Claim C5: after any call of the append operation on a field, the field
holds a list value (never a scalar), whatever its prior state; hence every
subsequent append finds and preserves list shape. -/
theorem C5_list_shape_invariant (st : StateMap) (f v : String) :
    ∃ l : List String,
      stGet ((append_to_state st f v).1) f = some (StateVal.list l) := by
  cases h : stGet st f with
  | none =>
    refine ⟨[v], ?_⟩
    have hstep : (append_to_state st f v).1 = stSet st f (StateVal.list [v]) := by
      simp [append_to_state, h]
    rw [hstep]
    exact stGet_stSet_self st f _
  | some w =>
    cases w with
    | str s =>
      refine ⟨[s, v], ?_⟩
      have hstep : (append_to_state st f v).1 = stSet st f (StateVal.list [s, v]) := by
        simp [append_to_state, h]
      rw [hstep]
      exact stGet_stSet_self st f _
    | list l =>
      refine ⟨l ++ [v], ?_⟩
      have hstep : (append_to_state st f v).1 = stSet st f (StateVal.list (l ++ [v])) := by
        simp [append_to_state, h]
      rw [hstep]
      exact stGet_stSet_self st f _

/-- Claim C9 (frame property): an append to field f leaves every other key g
of the session state unchanged (in particular pos_data and neg_data writes
do not interfere). -/
theorem C9_append_frame (st : StateMap) (f v g : String) (hne : g ≠ f) :
    stGet ((append_to_state st f v).1) g = stGet st g :=
  stGet_stSet_ne st f g _ hne

/-- Witness for C9_append_frame at concrete inputs. -/
theorem C9_append_frame_witness :
    stGet ((append_to_state [("neg_data", StateVal.str "n")] "pos_data" "p").1)
        "neg_data"
      = stGet [("neg_data", StateVal.str "n")] "neg_data" :=
  C9_append_frame [("neg_data", StateVal.str "n")] "pos_data" "p" "neg_data"
    (by decide)

/-- Does the string start with the path separator (Python `startswith('/')`,
as used by `posixpath.join`)? -/
def strStartsWithSlash (s : String) : Bool :=
  match s.toList with
  | [] => false
  | c :: _ => c == '/'

/-- Does the string end with the path separator (Python `endswith('/')`,
as used by `posixpath.join`)? -/
def strEndsWithSlash (s : String) : Bool :=
  match s.toList.reverse with
  | [] => false
  | c :: _ => c == '/'

/-- `os.path.join(d, f)` for POSIX paths with two components: an absolute
second component discards the first; an empty or slash-terminated first
component is concatenated directly; otherwise a separator is inserted. -/
def ospJoin (d f : String) : String :=
  if strStartsWithSlash f then f
  else if d = "" then f
  else if strEndsWithSlash d then d ++ f
  else d ++ "/" ++ f

/-- `os.path.dirname(p)` for POSIX paths: the prefix up to and including the
last separator, with trailing separators stripped unless the prefix consists
only of separators. -/
def ospDirname (p : String) : String :=
  if ((p.toList.reverse.dropWhile (· != '/')).dropWhile (· == '/')).isEmpty then
    String.mk (p.toList.reverse.dropWhile (· != '/')).reverse
  else
    String.mk ((p.toList.reverse.dropWhile (· != '/')).dropWhile (· == '/')).reverse

/-- Normal form of a directory name: trailing separators stripped unless the
string consists only of separators (so "d" and "d/" denote the same
directory). -/
def normDir (p : String) : String :=
  if (p.toList.reverse.dropWhile (· == '/')).isEmpty then p
  else String.mk (p.toList.reverse.dropWhile (· == '/')).reverse

/-- The chain of directories `os.makedirs(p)` creates: `p` itself and its
ancestors obtained by iterating `dirname` (fuelled; `dirname` never grows a
path). -/
def dirChain : Nat → String → List String
  | 0, _ => []
  | fuel + 1, p =>
    p ::
      (let q := ospDirname p
       if q = p ∨ q = "" then [] else dirChain fuel q)

/-- A model filesystem: the set of existing directories and a map from file
path to content. -/
structure FS where
  dirs : List String
  files : List (String × String)
  deriving DecidableEq, Repr

/-- `os.makedirs(p, exist_ok=True)`: `os.mkdir("")` raises
`FileNotFoundError`, so the empty path is an error; otherwise the path and
its missing ancestors are created (an already existing directory is fine
because of `exist_ok=True`). -/
def os_makedirs (fs : FS) (p : String) : Except String FS :=
  if p = "" then Except.error "No such file or directory"
  else Except.ok { fs with dirs := dirChain (p.length + 1) p ++ fs.dirs }

/-- Store content under a file path, replacing any previous content (the
semantics of `open(path, "w")` followed by a full write). -/
def setFile : List (String × String) → String → String → List (String × String)
  | [], k, v => [(k, v)]
  | (k0, v0) :: rest, k, v =>
    if k0 = k then (k0, v) :: rest else (k0, v0) :: setFile rest k v

/-- Content of a file path, if present. -/
def lookupFile : List (String × String) → String → Option String
  | [], _ => none
  | (k0, v0) :: rest, k => if k0 = k then some v0 else lookupFile rest k

/-- Embedding of `write_file` (agent.py lines 43-54):
`target_path = os.path.join(directory, filename)`;
`os.makedirs(os.path.dirname(target_path), exist_ok=True)`;
`open(target_path, "w").write(content)`. A `makedirs` failure propagates;
the write itself truncates and replaces the whole file body. -/
def write_file (fs : FS) (directory filename content : String) :
    Except String FS :=
  let target_path := ospJoin directory filename
  match os_makedirs fs (ospDirname target_path) with
  | Except.error e => Except.error e
  | Except.ok fs1 =>
    Except.ok { fs1 with files := setFile fs1.files target_path content }

/-- A directory exists in the model filesystem (up to trailing-separator
normal form). -/
def dirExists (fs : FS) (p : String) : Prop := normDir p ∈ fs.dirs

instance (fs : FS) (p : String) : Decidable (dirExists fs p) := by
  unfold dirExists
  infer_instance

/-- One round of the trial loop (agent.py lines 142-150): the parallel
investigation team runs first (a `ParallelAgent` of the two researchers; it
never escalates), then the judge, which may call `exit_loop` (the Bool
result: `true` means escalation ends the loop). -/
def trial_round {S : Type} (investigation : S → S) (judge : S → S × Bool)
    (s : S) : S × Bool :=
  judge (investigation s)

/-- `LoopAgent` execution: run rounds until a round escalates or the
iteration ceiling is exhausted; returns the final state and the number of
rounds begun. -/
def loopRun {S : Type} (step : S → S × Bool) : Nat → S → S × Nat
  | 0, s => (s, 0)
  | n + 1, s =>
    let r := step s
    if r.2 then (r.1, 1)
    else
      let rest := loopRun step n r.1
      (rest.1, rest.2 + 1)

/-- The `max_iterations=4` argument of the `trial_process` `LoopAgent`. -/
def trial_process_max_iterations : Nat := 4

/-- Embedding of the `trial_process` loop: up to `max_iterations` rounds of
[investigation_team, judge_agent], ending early when the judge escalates via
`exit_loop`. -/
def trial_process_run {S : Type} (investigation : S → S) (judge : S → S × Bool)
    (s : S) : S × Nat :=
  loopRun (trial_round investigation judge) trial_process_max_iterations s

theorem loopRun_rounds_le {S : Type} (step : S → S × Bool) (n : Nat) (s : S) :
    (loopRun step n s).2 ≤ n := by
  induction n generalizing s with
  | zero => simp [loopRun]
  | succ n ih =>
    simp only [loopRun]
    by_cases h : (step s).2
    · simp [h]
    · simpa [h] using ih (step s).1

/-- Claim C3: whatever the behaviour of the investigation team and the judge
(in particular, even if the judge never calls `exit_loop`), the trial loop
begins at most 4 rounds of [research, review]; no fifth round starts. -/
theorem C3_loop_bound {S : Type} (investigation : S → S)
    (judge : S → S × Bool) (s : S) :
    (trial_process_run investigation judge s).2 ≤ 4 :=
  loopRun_rounds_le (trial_round investigation judge) trial_process_max_iterations s

theorem lookupFile_setFile_self (files : List (String × String))
    (k v : String) : lookupFile (setFile files k v) k = some v := by
  induction files with
  | nil => simp [setFile, lookupFile]
  | cons hd tl ih =>
    obtain ⟨k0, v0⟩ := hd
    by_cases hk : k0 = k
    · simp [setFile, lookupFile, hk]
    · simp [setFile, lookupFile, hk, ih]

theorem strToList_append (a b : String) :
    (a ++ b).toList = a.toList ++ b.toList := by
  cases a
  cases b
  rfl

theorem strMk_toList (s : String) : String.mk s.toList = s := by
  cases s
  rfl

theorem strMk_ne_empty (c : Char) (l : List Char) :
    String.mk (c :: l) ≠ "" := by
  intro h
  simpa using congrArg String.toList h

theorem dropWhile_append_of_all {α : Type} (p : α → Bool) (xs ys : List α)
    (h : ∀ c ∈ xs, p c = true) :
    List.dropWhile p (xs ++ ys) = List.dropWhile p ys := by
  induction xs with
  | nil => rfl
  | cons c cs ih =>
    have hc : p c = true := h c (List.mem_cons_self c cs)
    have hrest : ∀ a ∈ cs, p a = true := fun a ha => h a (List.mem_cons_of_mem c ha)
    simp [List.dropWhile_cons, hc, ih hrest]

theorem normDir_ne_empty (d : String) (hd : d ≠ "") : normDir d ≠ "" := by
  unfold normDir
  cases hr : d.toList.reverse.dropWhile (· == '/') with
  | nil => simpa [hr] using hd
  | cons c l =>
    simp only [hr, List.isEmpty_cons, if_neg]
    cases hrl : (c :: l).reverse with
    | nil => simpa using congrArg List.length hrl
    | cons c2 l2 =>
      simp [hrl]
      exact strMk_ne_empty c2 l2

theorem strStartsWithSlash_of_no_slash (f : String)
    (hf : ∀ c ∈ f.toList, c ≠ '/') : strStartsWithSlash f = false := by
  unfold strStartsWithSlash
  cases hfl : f.toList with
  | nil => rfl
  | cons c cs =>
    have hc : c ≠ '/' := hf c (by rw [hfl]; exact List.mem_cons_self c cs)
    simp [hc]

theorem ospDirname_join (d f : String) (hd : d ≠ "")
    (hf : ∀ c ∈ f.toList, c ≠ '/') :
    ospDirname (ospJoin d f) = normDir d := by
  have hf0 : strStartsWithSlash f = false := strStartsWithSlash_of_no_slash f hf
  have hslash : ("/" : String).toList = ['/'] := rfl
  have hfall : ∀ c ∈ f.toList.reverse, (c != '/') = true := by
    intro c hc
    simpa using hf c (List.mem_reverse.mp hc)
  cases hrev : d.toList.reverse with
  | nil =>
    exfalso
    apply hd
    have hnil : d.toList = [] := by
      simpa using congrArg List.reverse hrev
    rw [← strMk_toList d, hnil]
  | cons c rest =>
    cases hEnd : strEndsWithSlash d with
    | false =>
      have hc : (c == '/') = false := by
        unfold strEndsWithSlash at hEnd
        rwa [hrev] at hEnd
      have hjoin : ospJoin d f = d ++ "/" ++ f := by
        simp [ospJoin, hf0, hd, hEnd]
      have h1 : (d ++ "/" ++ f).toList.reverse
          = f.toList.reverse ++ ('/' :: d.toList.reverse) := by
        rw [strToList_append, strToList_append, hslash]
        simp [List.reverse_append]
      have h2 : ((d ++ "/" ++ f).toList.reverse).dropWhile (· != '/')
          = '/' :: d.toList.reverse := by
        rw [h1, dropWhile_append_of_all _ _ _ hfall, List.dropWhile_cons]
        simp
      rw [hjoin]
      unfold ospDirname normDir
      rw [h2]
      have h3 : ('/' :: d.toList.reverse).dropWhile (· == '/')
          = d.toList.reverse.dropWhile (· == '/') := by
        simp [List.dropWhile_cons]
      rw [h3, hrev]
      simp [List.dropWhile_cons, hc]
    | true =>
      have hc : (c == '/') = true := by
        unfold strEndsWithSlash at hEnd
        rwa [hrev] at hEnd
      have hjoin : ospJoin d f = d ++ f := by
        simp [ospJoin, hf0, hd, hEnd]
      have h1 : (d ++ f).toList.reverse
          = f.toList.reverse ++ d.toList.reverse := by
        rw [strToList_append]
        simp [List.reverse_append]
      have h2 : ((d ++ f).toList.reverse).dropWhile (· != '/')
          = d.toList.reverse := by
        have hceq : c = '/' := by simpa using hc
        have hpc : (c != '/') = false := by simp [hceq]
        rw [h1, dropWhile_append_of_all _ _ _ hfall, hrev,
          List.dropWhile_cons, hpc]
        simp
      rw [hjoin]
      unfold ospDirname normDir
      rw [h2]
      cases hemp : (d.toList.reverse.dropWhile (· == '/')).isEmpty with
      | true => simp [hemp, List.reverse_reverse, strMk_toList]
      | false => simp [hemp]

theorem dirChain_head_mem (fuel : Nat) (p : String) (h : 0 < fuel) :
    p ∈ dirChain fuel p := by
  cases fuel with
  | zero => exact absurd h (by simp)
  | succ n => exact List.mem_cons_self p _

/-- Claim C6: writing the same directory and filename twice overwrites: after
the second successful call, the file at the joined target path holds exactly
the second content (the first write's content leaves no trace, because the
write truncates and replaces the whole body). -/
theorem C6_overwrite (fs fs1 fs2 : FS) (d f c1 c2 : String)
    (h1 : write_file fs d f c1 = Except.ok fs1)
    (h2 : write_file fs1 d f c2 = Except.ok fs2) :
    lookupFile fs2.files (ospJoin d f) = some c2 := by
  by_cases hp : ospDirname (ospJoin d f) = ""
  · simp [write_file, os_makedirs, hp] at h2
  · simp [write_file, os_makedirs, hp] at h2
    rw [← h2]
    exact lookupFile_setFile_self fs1.files (ospJoin d f) c2

/-- Witness for C6_overwrite: two concrete writes to d/a.txt; content is c2. -/
theorem C6_overwrite_witness :
    lookupFile (FS.files ⟨["d", "d", ""], [("d/a.txt", "c2")]⟩)
        (ospJoin "d" "a.txt")
      = some "c2" :=
  C6_overwrite ⟨[""], []⟩ ⟨["d", ""], [("d/a.txt", "c1")]⟩
    ⟨["d", "d", ""], [("d/a.txt", "c2")]⟩ "d" "a.txt" "c1" "c2" rfl rfl

/-- Modelled from the spec: the `verdict_writer` agent is instructed (prompt
text of agent.py lines 154-177, not executable code) to call `write_file`
with directory "court_records" and filename "{PROMPT}.txt" with spaces
removed; the filename derivation lives in natural-language instructions, so
it is modelled here from the spec's words. -/
def verdictFilename (subject : String) : String :=
  String.mk (subject.toList.filter (· != ' ')) ++ ".txt"

/-- Modelled from the spec: the report stage invokes the file-write operation
once, with the fixed directory "court_records", the sanitized subject
filename, and the report content. -/
def verdict_writer_write (fs : FS) (subject content : String) :
    Except String FS :=
  write_file fs "court_records" (verdictFilename subject) content

/-- Claim C7: writing the report for subject "Cleopatra" succeeds and leaves
the file court_records/Cleopatra.txt holding exactly the supplied content. -/
theorem C7_cleopatra_report (fs : FS) (content : String) :
    ∃ fs2 : FS, verdict_writer_write fs "Cleopatra" content = Except.ok fs2 ∧
      lookupFile fs2.files "court_records/Cleopatra.txt" = some content := by
  refine ⟨⟨"court_records" :: fs.dirs,
    setFile fs.files "court_records/Cleopatra.txt" content⟩, rfl, ?_⟩
  exact lookupFile_setFile_self fs.files "court_records/Cleopatra.txt" content

/-- Claim C8 (as stated, counterexample): with an absolute filename,
`os.path.join` discards the directory component, so the missing target
directory "d" is never created even though the write itself succeeds. -/
theorem C8_claim_counterexample :
    ¬ dirExists ⟨[""], []⟩ "d" ∧
      write_file ⟨[""], []⟩ "d" "/f.txt" "c"
        = Except.ok ⟨["/", ""], [("/f.txt", "c")]⟩ ∧
      ¬ dirExists ⟨["/", ""], [("/f.txt", "c")]⟩ "d" :=
  ⟨by decide, rfl, by decide⟩

/-- Claim C8 (amended): for every filesystem in which the current working
directory exists, every directory path, every filename that contains no path
separator, and every content, if the target directory does not exist prior
to the call then `write_file` creates it (with its parents) and the write
succeeds, leaving the joined target path holding the content. -/
theorem C8_creates_directory (fs : FS) (d f c : String)
    (hcwd : dirExists fs "") (hnd : ¬ dirExists fs d)
    (hf : ∀ ch ∈ f.toList, ch ≠ '/') :
    ∃ fs2 : FS, write_file fs d f c = Except.ok fs2 ∧ dirExists fs2 d ∧
      lookupFile fs2.files (ospJoin d f) = some c := by
  have hd : d ≠ "" := by
    intro h
    rw [h] at hnd
    exact hnd hcwd
  have hdir : ospDirname (ospJoin d f) = normDir d := ospDirname_join d f hd hf
  have hne : normDir d ≠ "" := normDir_ne_empty d hd
  refine ⟨⟨dirChain ((normDir d).length + 1) (normDir d) ++ fs.dirs,
    setFile fs.files (ospJoin d f) c⟩, ?_, ?_, ?_⟩
  · simp [write_file, hdir, os_makedirs, hne]
  · unfold dirExists
    exact List.mem_append_left fs.dirs
      (dirChain_head_mem ((normDir d).length + 1) (normDir d) (Nat.succ_pos _))
  · exact lookupFile_setFile_self fs.files (ospJoin d f) c

/-- Witness for C8_creates_directory at concrete inputs. -/
theorem C8_creates_directory_witness :
    ∃ fs2 : FS, write_file ⟨[""], []⟩ "d" "a.txt" "c" = Except.ok fs2 ∧
      dirExists fs2 "d" ∧
      lookupFile fs2.files (ospJoin "d" "a.txt") = some "c" :=
  C8_creates_directory ⟨[""], []⟩ "d" "a.txt" "c" (by decide) (by decide)
    (by decide)

/-- Claim C10: with an empty directory path and a plain filename (no path
separator), `os.path.dirname` of the joined target is empty, so
`os.makedirs("")` raises FileNotFoundError and the operation fails instead
of writing the file into the current working directory. -/
theorem C10_empty_directory_error :
    ospDirname (ospJoin "" "f.txt") = "" ∧
      write_file ⟨[""], []⟩ "" "f.txt" "report"
        = Except.error "No such file or directory" :=
  ⟨rfl, rfl⟩
